import Mathlib

/-!
Shallow embedding of the memory-mapping core of `rust_roulette`
(`src/memmap.rs`): the `PermissionSet` model, its conversion to native
protection flags, the `Mapping` record, the `/proc/<pid>/maps` line
parser `get_memmap`, and the `set_permissions` mutation operation.

Strings are modelled as `List Char`; the maps pseudo-file is modelled as
the list of its lines (`BufReader::lines` strips newlines); the
`mprotect` system call is modelled as an oracle parameter returning
`none` on success or `some errno` on failure, and the calls actually
issued are returned as a log.
-/

/-- Structure `PermissionSet` from memmap.rs: three independent booleans. -/
structure PermissionSet where
  readable : Bool
  writeable : Bool
  executable : Bool
deriving DecidableEq

/-- Body of the `for letter in s.chars()` loop of `PermissionSet::from`:
`'r'`/`'w'`/`'x'` set the corresponding flag, anything else is skipped. -/
def PermissionSet.step (result : PermissionSet) (letter : Char) : PermissionSet :=
  match letter with
  | 'r' => ⟨true, result.writeable, result.executable⟩
  | 'w' => ⟨result.readable, true, result.executable⟩
  | 'x' => ⟨result.readable, result.writeable, true⟩
  | _ => result

/-- Function `PermissionSet::from(s)`: start all-false, fold the loop body
over the characters of `s`. -/
def PermissionSet.fromChars (s : List Char) : PermissionSet :=
  s.foldl PermissionSet.step ⟨false, false, false⟩

/-- Predicate `PermissionSet::and`: boolean OR of flag-guarded equalities,
verbatim from memmap.rs lines 42-46. -/
def PermissionSet.and (self mask : PermissionSet) : Bool :=
  (self.readable && (self.readable == mask.readable))
    || (self.writeable && (self.writeable == mask.writeable))
    || (self.executable && (self.executable == mask.executable))

/-- Linux `PROT_READ` bit. -/
def PROT_READ : Nat := 1

/-- Linux `PROT_WRITE` bit. -/
def PROT_WRITE : Nat := 2

/-- Linux `PROT_EXEC` bit. -/
def PROT_EXEC : Nat := 4

/-- Method `set(flag, value)` of `bitflags` on the underlying 32-bit
integer: insert the bit when `value` is true, remove it otherwise. -/
def protFlagsSet (flags bit : Nat) (value : Bool) : Nat :=
  if value then flags ||| bit else flags &&& (4294967295 ^^^ bit)

/-- Conversion `impl Into<ProtFlags> for PermissionSet`: start from the
empty flag set and `set` each protection bit from the corresponding
boolean. -/
def PermissionSet.intoProtFlags (self : PermissionSet) : Nat :=
  let result := 0
  let result := protFlagsSet result PROT_READ self.readable
  let result := protFlagsSet result PROT_WRITE self.writeable
  let result := protFlagsSet result PROT_EXEC self.executable
  result

/-- Rendering `impl Display for PermissionSet`: the three characters
written, in fixed order (r or dash, w or dash, x or dash). -/
def PermissionSet.display (self : PermissionSet) : List Char :=
  [if self.readable then 'r' else '-',
   if self.writeable then 'w' else '-',
   if self.executable then 'x' else '-']

/-- Structure `Mapping` from memmap.rs: start/end addresses (u64 values,
kept as `Nat` below `2^64` by the parser), a permission set and a path. -/
structure Mapping where
  start_addr : Nat
  end_addr : Nat
  permissions : PermissionSet
  path : List Char
deriving DecidableEq

/-- Constructor `Mapping::new`: parses the permission string via
`PermissionSet::from`. -/
def Mapping.new (start_addr end_addr : Nat) (permissions : List Char)
    (path : List Char) : Mapping :=
  ⟨start_addr, end_addr, PermissionSet.fromChars permissions, path⟩

/-- Method `Mapping::size`: `end_addr - start_addr`. -/
def Mapping.size (self : Mapping) : Nat :=
  self.end_addr - self.start_addr

/-- One `mprotect` call issued over the system-call boundary: page
address, byte length, native protection flags. -/
structure SysCall where
  addr : Nat
  len : Nat
  flags : Nat
deriving DecidableEq

/-- Errors `Mapping::set_permissions` can return: the null-address
check (carrying the offending address) or a rejected `mprotect` call
(context carries the address, plus the native error). -/
inductive PermError where
  | nullAddress : Nat → PermError
  | mprotectFailed : Nat → Nat → PermError
deriving DecidableEq

/-- Method `Mapping::set_permissions`: fail if `start_addr` casts to a
null pointer, otherwise call `mprotect(start_addr, size,
new_perms.into())`. The kernel's verdict is the oracle `mprotect`
(`none` = success, `some errno` = failure). Returns the final state of
`self` (the source assigns no field of `self`), the `Result`, and the
log of system calls issued. -/
def Mapping.set_permissions (self : Mapping) (new_perms : PermissionSet)
    (mprotect : Nat → Nat → Nat → Option Nat) :
    Mapping × Except PermError Unit × List SysCall :=
  if self.start_addr = 0 then
    (self, .error (.nullAddress self.start_addr), [])
  else
    match mprotect self.start_addr self.size new_perms.intoProtFlags with
    | none => (self, .ok (), [⟨self.start_addr, self.size, new_perms.intoProtFlags⟩])
    | some errno =>
        (self, .error (.mprotectFailed self.start_addr errno),
          [⟨self.start_addr, self.size, new_perms.intoProtFlags⟩])

/-- Value of a hexadecimal digit, as in `char::to_digit(16)`. -/
def hexDigitVal (c : Char) : Option Nat :=
  let n := c.toNat
  if 48 ≤ n ∧ n ≤ 57 then some (n - 48)
  else if 97 ≤ n ∧ n ≤ 102 then some (n - 97 + 10)
  else if 65 ≤ n ∧ n ≤ 70 then some (n - 65 + 10)
  else none

/-- Parser `u64::from_str_radix(s, 16)`: an optional leading plus sign,
then a non-empty run of hex digits; fails on any other character, on the
empty digit run, and on overflow past `2^64 - 1`. -/
def fromStrRadix16 (s : List Char) : Option Nat :=
  let digits := match s with
    | '+' :: rest => rest
    | rest => rest
  if digits = [] then none
  else
    digits.foldlM
      (fun acc c =>
        match hexDigitVal c with
        | none => none
        | some d =>
            if acc * 16 + d < 18446744073709551616 then some (acc * 16 + d)
            else none)
      0

/-- Predicate `char::is_whitespace`: the Unicode White_Space code points. -/
def isRustWhitespace (c : Char) : Bool :=
  let n := c.toNat
  (9 ≤ n && n ≤ 13) || n == 32 || n == 133 || n == 160 || n == 5760
    || (8192 ≤ n && n ≤ 8202) || n == 8232 || n == 8233 || n == 8239
    || n == 8287 || n == 12288

/-- Splitter `str::split_whitespace`: split on whitespace runs, no empty
fields. -/
def splitWhitespace (s : List Char) : List (List Char) :=
  (s.splitOnP isRustWhitespace).filter (fun field => ¬ field.isEmpty)

/-- Diagnostics `get_memmap` prints while continuing: a line with
fewer than 5 whitespace fields (field count and the line), or an
address field whose parseable hex components do not number exactly two
(the field and the parsed values). -/
inductive Diag where
  | tooFewFields : Nat → List Char → Diag
  | badAddressCount : List Char → List Nat → Diag
deriving DecidableEq

/-- Fatal error of the per-line loop of `get_memmap`: the address
field failed to parse (`context("Failed to parse addresses ...")?`
aborts the whole read, carrying the offending field). -/
inductive MapsError where
  | addrParse : List Char → MapsError
deriving DecidableEq

/-- Per-line loop of `get_memmap` over the lines of `/proc/<pid>/maps`
(opening the file and line-level I/O errors are outside this model; the
file is given as its list of lines). Returns the mappings in line order
together with the printed diagnostics, or the fatal address-parse
error. -/
def get_memmap : List (List Char) → Except MapsError (List Mapping × List Diag)
  | [] => .ok ([], [])
  | line :: rest =>
    let fields := splitWhitespace line
    if fields.length < 5 then
      match get_memmap rest with
      | .error e => .error e
      | .ok (results, diags) =>
          .ok (results, .tooFewFields fields.length line :: diags)
    else
      match ((fields.getD 0 []).splitOn '-').mapM fromStrRadix16 with
      | none => .error (.addrParse (fields.getD 0 []))
      | some addresses =>
        if addresses.length ≠ 2 then
          match get_memmap rest with
          | .error e => .error e
          | .ok (results, diags) =>
              .ok (results, .badAddressCount (fields.getD 0 []) addresses :: diags)
        else
          let perms := fields.getD 1 []
          let path :=
            if fields.length > 5 then List.intercalate [' '] (fields.drop 5)
            else []
          match get_memmap rest with
          | .error e => .error e
          | .ok (results, diags) =>
              .ok (Mapping.new (addresses.getD 0 0) (addresses.getD 1 0)
                     perms path :: results, diags)

/-- Address-range parse of a line: the first whitespace field, split on
dashes, each component through `u64::from_str_radix(_, 16)` and
collected (short-circuiting on the first failure) — exactly the
scrutinee of the address match in `get_memmap`. -/
def addrsOf (line : List Char) : Option (List Nat) :=
  (((splitWhitespace line).getD 0 []).splitOn '-').mapM fromStrRadix16

/-- Input-table condition for the amended C9: every line whose address
field parses as exactly two hex numbers lists them in increasing order
(as every kernel-produced maps table does). -/
def linesOrdered (lines : List (List Char)) : Bool :=
  lines.all fun line =>
    match addrsOf line with
    | some [a, b] => decide (a < b)
    | _ => true

/-- Synthetic malformed maps line with only 3 whitespace fields. -/
def synthBadLine : List Char := "7f0000000000 rw-p 00000000".toList

/-- Synthetic maps table: two well-formed lines around one malformed
3-field line. -/
def synthTable : List (List Char) :=
  ["08048000-08049000 r-xp 00000000 08:01 123 /bin/cat".toList,
   synthBadLine,
   "08049000-0804a000 rw-p 00001000 08:01 123 /bin/cat".toList]

/-- Mapping parsed from the first well-formed line of `synthTable`. -/
def synthM1 : Mapping := ⟨134512640, 134516736, ⟨true, false, true⟩, "/bin/cat".toList⟩

/-- Mapping parsed from the second well-formed line of `synthTable`. -/
def synthM2 : Mapping := ⟨134516736, 134520832, ⟨true, true, false⟩, "/bin/cat".toList⟩

instance instDecidableEqExcept {ε α : Type} [DecidableEq ε] [DecidableEq α] :
    DecidableEq (Except ε α) := fun a b =>
  match a, b with
  | .ok a, .ok b =>
      if h : a = b then .isTrue (by rw [h])
      else .isFalse (fun hc => h (by cases hc; rfl))
  | .ok _, .error _ => .isFalse (fun hc => Except.noConfusion hc)
  | .error _, .ok _ => .isFalse (fun hc => Except.noConfusion hc)
  | .error e, .error f =>
      if h : e = f then .isTrue (by rw [h])
      else .isFalse (fun hc => h (by cases hc; rfl))

lemma char_beq_comm (c a : Char) : (c == a) = (a == c) := by
  by_cases h : c = a <;> simp [h, beq_iff_eq]
  exact fun hh => h hh.symm

lemma step_readable (acc : PermissionSet) (c : Char) :
    (PermissionSet.step acc c).readable = (acc.readable || (c == 'r')) := by
  unfold PermissionSet.step
  split <;> simp_all

lemma step_writeable (acc : PermissionSet) (c : Char) :
    (PermissionSet.step acc c).writeable = (acc.writeable || (c == 'w')) := by
  unfold PermissionSet.step
  split <;> simp_all

lemma step_executable (acc : PermissionSet) (c : Char) :
    (PermissionSet.step acc c).executable = (acc.executable || (c == 'x')) := by
  unfold PermissionSet.step
  split <;> simp_all

lemma foldl_step_readable (s : List Char) (acc : PermissionSet) :
    (s.foldl PermissionSet.step acc).readable = (acc.readable || s.contains 'r') := by
  induction s generalizing acc with
  | nil => simp [List.contains]
  | cons c t ih =>
      rw [List.foldl_cons, ih, step_readable, List.contains_cons,
        char_beq_comm c 'r', Bool.or_assoc]

lemma foldl_step_writeable (s : List Char) (acc : PermissionSet) :
    (s.foldl PermissionSet.step acc).writeable = (acc.writeable || s.contains 'w') := by
  induction s generalizing acc with
  | nil => simp [List.contains]
  | cons c t ih =>
      rw [List.foldl_cons, ih, step_writeable, List.contains_cons,
        char_beq_comm c 'w', Bool.or_assoc]

lemma foldl_step_executable (s : List Char) (acc : PermissionSet) :
    (s.foldl PermissionSet.step acc).executable = (acc.executable || s.contains 'x') := by
  induction s generalizing acc with
  | nil => simp [List.contains]
  | cons c t ih =>
      rw [List.foldl_cons, ih, step_executable, List.contains_cons,
        char_beq_comm c 'x', Bool.or_assoc]

lemma get_memmap_cons_short (line : List Char) (rest : List (List Char))
    (h : (splitWhitespace line).length < 5) :
    get_memmap (line :: rest)
      = (get_memmap rest).map
          (fun p => (p.1, Diag.tooFewFields (splitWhitespace line).length line :: p.2)) := by
  simp only [get_memmap]
  rw [if_pos h]
  cases get_memmap rest with
  | error e => rfl
  | ok val => obtain ⟨ms, ds⟩ := val; rfl

lemma get_memmap_cons_parse_error (line : List Char) (rest : List (List Char))
    (h5 : ¬ (splitWhitespace line).length < 5) (hp : addrsOf line = none) :
    get_memmap (line :: rest) = .error (.addrParse ((splitWhitespace line).getD 0 [])) := by
  simp only [get_memmap]
  rw [if_neg h5]
  unfold addrsOf at hp
  rw [hp]

lemma get_memmap_cons_badcount (line : List Char) (rest : List (List Char))
    (addresses : List Nat) (h5 : ¬ (splitWhitespace line).length < 5)
    (hp : addrsOf line = some addresses) (hn : addresses.length ≠ 2) :
    get_memmap (line :: rest)
      = (get_memmap rest).map
          (fun p => (p.1,
            Diag.badAddressCount ((splitWhitespace line).getD 0 []) addresses :: p.2)) := by
  simp only [get_memmap]
  rw [if_neg h5]
  unfold addrsOf at hp
  rw [hp]
  split
  · next x heq => exact absurd heq (by simp)
  · next x a heq =>
      obtain rfl : addresses = a := by injection heq
      rw [if_pos hn]
      cases get_memmap rest with
      | error e => rfl
      | ok val => obtain ⟨ms, ds⟩ := val; rfl

lemma get_memmap_cons_ok (line : List Char) (rest : List (List Char))
    (addresses : List Nat) (h5 : ¬ (splitWhitespace line).length < 5)
    (hp : addrsOf line = some addresses) (hn : addresses.length = 2) :
    get_memmap (line :: rest)
      = (get_memmap rest).map
          (fun p =>
            (Mapping.new (addresses.getD 0 0) (addresses.getD 1 0)
               ((splitWhitespace line).getD 1 [])
               (if (splitWhitespace line).length > 5 then
                  List.intercalate [' '] ((splitWhitespace line).drop 5)
                else []) :: p.1, p.2)) := by
  simp only [get_memmap]
  rw [if_neg h5]
  unfold addrsOf at hp
  rw [hp]
  split
  · next x heq => exact absurd heq (by simp)
  · next x a heq =>
      obtain rfl : addresses = a := by injection heq
      rw [if_neg (not_not_intro hn)]
      cases get_memmap rest with
      | error e => rfl
      | ok val => obtain ⟨ms, ds⟩ := val; rfl

/-- C4 (counterexample): the claim says `and` applied to two all-false
permission sets returns `true`; in the code every disjunct is guarded by
the corresponding flag of `self`, so on two all-false sets it returns
`false`. -/
theorem and_allFalse_allFalse_eq_false :
    PermissionSet.and ⟨false, false, false⟩ ⟨false, false, false⟩ = false := by
  decide

/-- C4 (amended): the predicate `PermissionSet.and` coincides with the
per-flag any-overlap test — it returns `true` exactly when some flag is
true in both sets — so two all-false sets are reported as not
overlapping. -/
theorem and_eq_overlap :
    ∀ a b : PermissionSet,
      a.and b
        = ((a.readable && b.readable) || (a.writeable && b.writeable)
            || (a.executable && b.executable)) := by
  intro ⟨r, w, e⟩ ⟨r', w', e'⟩
  cases r <;> cases w <;> cases e <;> cases r' <;> cases w' <;> cases e' <;> rfl

/-- C8: the conversion to native protection flags sets exactly the
`PROT_READ`/`PROT_WRITE`/`PROT_EXEC` bit for each flag that is true,
leaves the bit absent for each flag that is false, contains no other
bits, and is total on all eight permission combinations. -/
theorem intoProtFlags_exact :
    ∀ p : PermissionSet,
      (p.intoProtFlags &&& PROT_READ = if p.readable then PROT_READ else 0)
      ∧ (p.intoProtFlags &&& PROT_WRITE = if p.writeable then PROT_WRITE else 0)
      ∧ (p.intoProtFlags &&& PROT_EXEC = if p.executable then PROT_EXEC else 0)
      ∧ p.intoProtFlags
          = ((if p.readable then PROT_READ else 0)
              ||| (if p.writeable then PROT_WRITE else 0)
              ||| (if p.executable then PROT_EXEC else 0)) := by
  intro ⟨r, w, e⟩
  cases r <;> cases w <;> cases e <;> decide

/-- C3: for every 4-character permission string over
(r or dash)(w or dash)(x or dash)(p or s), parsing with
`PermissionSet::from` and rendering via `Display` reproduces exactly the
first three input characters, ignoring the fourth. -/
theorem parse_display_roundtrip :
    ∀ (b1 b2 b3 : Bool) (c4 : Char), (c4 = 'p' ∨ c4 = 's') →
      (PermissionSet.fromChars
          [if b1 then 'r' else '-', if b2 then 'w' else '-',
           if b3 then 'x' else '-', c4]).display
        = [if b1 then 'r' else '-', if b2 then 'w' else '-',
           if b3 then 'x' else '-'] := by
  rintro b1 b2 b3 c4 (rfl | rfl) <;> cases b1 <;> cases b2 <;> cases b3 <;> rfl

/-- C3 witness: the round-trip at the concrete string `r-xp`. -/
theorem parse_display_roundtrip_witness :
    ('p' = 'p' ∨ 'p' = 's')
    ∧ (PermissionSet.fromChars ['r', '-', 'x', 'p']).display = ['r', '-', 'x'] :=
  ⟨Or.inl rfl, parse_display_roundtrip true false true 'p' (Or.inl rfl)⟩

/-- C5: `PermissionSet::from` sets each flag true exactly when the
corresponding letter occurs anywhere in the input, skips every other
character, and is total (it never fails); in particular the empty
string yields all-false and `xrw-` yields all-true. -/
theorem fromChars_spec :
    (∀ s : List Char,
        (PermissionSet.fromChars s).readable = s.contains 'r'
        ∧ (PermissionSet.fromChars s).writeable = s.contains 'w'
        ∧ (PermissionSet.fromChars s).executable = s.contains 'x')
    ∧ PermissionSet.fromChars "".toList = ⟨false, false, false⟩
    ∧ PermissionSet.fromChars "xrw-".toList = ⟨true, true, true⟩ := by
  refine ⟨fun s => ⟨?_, ?_, ?_⟩, by decide, by decide⟩
  · rw [PermissionSet.fromChars, foldl_step_readable]; rfl
  · rw [PermissionSet.fromChars, foldl_step_writeable]; rfl
  · rw [PermissionSet.fromChars, foldl_step_executable]; rfl

/-- C1 (counterexample): a successful `set_permissions` call (the
`mprotect` oracle accepts) after which the in-memory record's
`permissions` field still holds its old value, not the requested one:
the source never assigns `self.permissions`. -/
theorem set_permissions_success_keeps_old_permissions :
    (Mapping.mk 4096 8192 ⟨false, false, false⟩ []).set_permissions
        ⟨true, false, false⟩ (fun _ _ _ => none)
      = (Mapping.mk 4096 8192 ⟨false, false, false⟩ [], .ok (), [⟨4096, 4096, 1⟩])
    ∧ (PermissionSet.mk false false false) ≠ ⟨true, false, false⟩ := by
  decide

/-- C1 (amended): `set_permissions` never modifies the in-memory
mapping: whatever the oracle answers, the final state of `self` equals
its initial state, so after a successful call the `permissions` field
still holds the value recorded at enumeration time rather than the
requested set. -/
theorem set_permissions_state_unchanged :
    ∀ (m : Mapping) (p : PermissionSet) (sys : Nat → Nat → Nat → Option Nat),
      (m.set_permissions p sys).1 = m := by
  intro m p sys
  unfold Mapping.set_permissions
  split
  · rfl
  · split <;> rfl

/-- C10: `set_permissions` leaves `start_addr`, `end_addr` and `path`
unchanged, whether the call succeeds or fails. -/
theorem set_permissions_frame :
    ∀ (m : Mapping) (p : PermissionSet) (sys : Nat → Nat → Nat → Option Nat),
      ((m.set_permissions p sys).1).start_addr = m.start_addr
      ∧ ((m.set_permissions p sys).1).end_addr = m.end_addr
      ∧ ((m.set_permissions p sys).1).path = m.path := by
  intro m p sys
  unfold Mapping.set_permissions
  split
  · exact ⟨rfl, rfl, rfl⟩
  · split <;> exact ⟨rfl, rfl, rfl⟩

/-- C7: on a null start address `set_permissions` fails with the
null-address error carrying the offending address, and the system-call
log is empty — no `mprotect` call is attempted, whatever the oracle
would have answered. -/
theorem set_permissions_null_addr :
    ∀ (m : Mapping) (p : PermissionSet) (sys : Nat → Nat → Nat → Option Nat),
      m.start_addr = 0 →
      m.set_permissions p sys = (m, .error (.nullAddress m.start_addr), []) := by
  intro m p sys h
  unfold Mapping.set_permissions
  rw [if_pos h]

/-- C7 witness: the null-address failure at a concrete mapping, against
an oracle that would reject the call — the error and the empty call log
do not depend on it. -/
theorem set_permissions_null_addr_witness :
    (Mapping.mk 0 4096 ⟨true, false, false⟩ []).start_addr = 0
    ∧ (Mapping.mk 0 4096 ⟨true, false, false⟩ []).set_permissions
          ⟨true, true, true⟩ (fun _ _ _ => some 13)
        = (Mapping.mk 0 4096 ⟨true, false, false⟩ [],
           .error (.nullAddress 0), []) :=
  ⟨rfl, set_permissions_null_addr _ _ _ rfl⟩

/-- C2 (counterexample): a line whose address field contains an
unparseable hex component is not skipped — `get_memmap` aborts the
whole read with the address-parse error instead of continuing. -/
theorem get_memmap_aborts_on_unparseable_addr :
    get_memmap ["xyz-08049000 r-xp 00000000 08:01 123 /bin/cat".toList]
      = .error (.addrParse "xyz-08049000".toList) := by
  decide

/-- C2 (amended): when every component of the address field parses as a
hex number but their count is not exactly two, the line is skipped with
a diagnostic and enumeration continues; when some component fails to
parse, the whole read aborts with an error carrying the field. -/
theorem get_memmap_addr_field_split :
    (∀ (line : List Char) (rest : List (List Char)) (addresses : List Nat),
        ¬ (splitWhitespace line).length < 5 →
        addrsOf line = some addresses →
        addresses.length ≠ 2 →
        get_memmap (line :: rest)
          = (get_memmap rest).map
              (fun p => (p.1,
                Diag.badAddressCount ((splitWhitespace line).getD 0 []) addresses :: p.2)))
    ∧ (∀ (line : List Char) (rest : List (List Char)),
        ¬ (splitWhitespace line).length < 5 →
        addrsOf line = none →
        get_memmap (line :: rest)
          = .error (.addrParse ((splitWhitespace line).getD 0 []))) :=
  ⟨fun line rest addresses h5 hp hn =>
      get_memmap_cons_badcount line rest addresses h5 hp hn,
   fun line rest h5 hp => get_memmap_cons_parse_error line rest h5 hp⟩

/-- C2 witness: a three-component address field (all components
parseable) is skipped with a diagnostic, while an unparseable component
aborts the read. -/
theorem get_memmap_addr_field_split_witness :
    (¬ (splitWhitespace "1000-2000-3000 r-xp 0 0 0".toList).length < 5)
    ∧ addrsOf "1000-2000-3000 r-xp 0 0 0".toList = some [4096, 8192, 12288]
    ∧ get_memmap ["1000-2000-3000 r-xp 0 0 0".toList]
        = .ok ([], [Diag.badAddressCount "1000-2000-3000".toList [4096, 8192, 12288]])
    ∧ addrsOf "gg-1000 r-xp 0 0 0".toList = none
    ∧ get_memmap ["gg-1000 r-xp 0 0 0".toList]
        = .error (.addrParse "gg-1000".toList) :=
  ⟨by decide, by decide,
   by
     exact get_memmap_addr_field_split.1 "1000-2000-3000 r-xp 0 0 0".toList []
       [4096, 8192, 12288] (by decide) (by decide) (by decide),
   by decide,
   by
     exact get_memmap_addr_field_split.2 "gg-1000 r-xp 0 0 0".toList []
       (by decide) (by decide)⟩

/-- C6: a line with fewer than 5 whitespace fields is skipped with one
diagnostic and the read continues; on the synthetic table with one
3-field line between two well-formed lines, `get_memmap` returns
exactly the two well-formed mappings in input order and one
diagnostic. -/
theorem get_memmap_skips_short_lines :
    (∀ (line : List Char) (rest : List (List Char)),
        (splitWhitespace line).length < 5 →
        get_memmap (line :: rest)
          = (get_memmap rest).map
              (fun p => (p.1, Diag.tooFewFields (splitWhitespace line).length line :: p.2)))
    ∧ get_memmap synthTable
        = .ok ([synthM1, synthM2], [Diag.tooFewFields 3 synthBadLine]) :=
  ⟨fun line rest h => get_memmap_cons_short line rest h, by decide⟩

/-- C6 witness: the skip behaviour applied at the concrete 3-field
line. -/
theorem get_memmap_skips_short_lines_witness :
    (splitWhitespace synthBadLine).length < 5
    ∧ get_memmap [synthBadLine]
        = .ok ([], [Diag.tooFewFields (splitWhitespace synthBadLine).length synthBadLine]) :=
  ⟨by decide, by exact get_memmap_skips_short_lines.1 synthBadLine [] (by decide)⟩

/-- C9 (counterexample): `get_memmap` performs no validation of the
parsed address range: the degenerate line `0-0 ...` constructs a
mapping with equal start and end addresses — a zero-length mapping with
size 0. -/
theorem get_memmap_constructs_zero_length_mapping :
    get_memmap ["0-0 r--p 00000000 08:01 123".toList]
      = .ok ([Mapping.mk 0 0 ⟨true, false, false⟩ []], [])
    ∧ ¬ ((Mapping.mk 0 0 (⟨true, false, false⟩ : PermissionSet) []).start_addr
          < (Mapping.mk 0 0 ⟨true, false, false⟩ []).end_addr)
    ∧ (Mapping.mk 0 0 (⟨true, false, false⟩ : PermissionSet) []).size = 0 := by
  exact ⟨by decide, by decide, by decide⟩

/-- C9 (amended): the start and end of every constructed mapping are
exactly the two parsed hex numbers of its line, so whenever the input
table's parsed address ranges are increasing — as kernel-produced
tables are — every mapping returned by `get_memmap` satisfies
`start_addr < end_addr`, and its size is positive. -/
theorem get_memmap_start_lt_end_of_ordered :
    ∀ (lines : List (List Char)) (results : List Mapping) (diags : List Diag),
      get_memmap lines = .ok (results, diags) →
      linesOrdered lines = true →
      ∀ m ∈ results, m.start_addr < m.end_addr ∧ 0 < m.size := by
  intro lines
  induction lines with
  | nil =>
      intro results diags h hord m hm
      simp only [get_memmap, Except.ok.injEq, Prod.mk.injEq] at h
      obtain ⟨rfl, rfl⟩ := h
      simp at hm
  | cons line rest ih =>
      intro results diags h hord m hm
      have hall := hord
      simp only [linesOrdered, List.all_cons, Bool.and_eq_true] at hall
      have hords : linesOrdered rest = true := by
        simp only [linesOrdered]; exact hall.2
      by_cases h5 : (splitWhitespace line).length < 5
      · rw [get_memmap_cons_short line rest h5] at h
        cases hr : get_memmap rest with
        | error e => rw [hr] at h; exact absurd h (by simp [Except.map])
        | ok val =>
            obtain ⟨ms, ds⟩ := val
            rw [hr] at h
            simp only [Except.map, Except.ok.injEq, Prod.mk.injEq] at h
            obtain ⟨rfl, rfl⟩ := h
            exact ih ms ds hr hords m hm
      · cases hp : addrsOf line with
        | none =>
            rw [get_memmap_cons_parse_error line rest h5 hp] at h
            exact absurd h (by simp)
        | some addresses =>
            by_cases hn : addresses.length = 2
            · rw [get_memmap_cons_ok line rest addresses h5 hp hn] at h
              cases hr : get_memmap rest with
              | error e => rw [hr] at h; exact absurd h (by simp [Except.map])
              | ok val =>
                  obtain ⟨ms, ds⟩ := val
                  rw [hr] at h
                  simp only [Except.map, Except.ok.injEq, Prod.mk.injEq] at h
                  obtain ⟨rfl, rfl⟩ := h
                  rcases List.mem_cons.mp hm with rfl | hmem
                  · obtain ⟨a, b, rfl⟩ : ∃ a b, addresses = [a, b] := by
                      cases addresses with
                      | nil => simp at hn
                      | cons a t =>
                          cases t with
                          | nil => simp at hn
                          | cons b t2 =>
                              cases t2 with
                              | nil => exact ⟨a, b, rfl⟩
                              | cons c t3 => simp at hn
                    have hab : a < b := by
                      have h1 := hall.1
                      rw [hp] at h1
                      simpa using h1
                    exact ⟨hab, Nat.sub_pos_of_lt hab⟩
                  · exact ih ms ds hr hords m hmem
            · rw [get_memmap_cons_badcount line rest addresses h5 hp hn] at h
              cases hr : get_memmap rest with
              | error e => rw [hr] at h; exact absurd h (by simp [Except.map])
              | ok val =>
                  obtain ⟨ms, ds⟩ := val
                  rw [hr] at h
                  simp only [Except.map, Except.ok.injEq, Prod.mk.injEq] at h
                  obtain ⟨rfl, rfl⟩ := h
                  exact ih ms ds hr hords m hm

/-- C9 witness: the ordered single-line table parses to one mapping
whose start is below its end and whose size is positive. -/
theorem get_memmap_start_lt_end_of_ordered_witness :
    get_memmap ["08048000-08049000 r-xp 00000000 08:01 123 /bin/cat".toList]
      = .ok ([synthM1], [])
    ∧ linesOrdered ["08048000-08049000 r-xp 00000000 08:01 123 /bin/cat".toList] = true
    ∧ synthM1 ∈ [synthM1]
    ∧ synthM1.start_addr < synthM1.end_addr ∧ 0 < synthM1.size :=
  ⟨by decide, by decide, by decide,
   get_memmap_start_lt_end_of_ordered
     ["08048000-08049000 r-xp 00000000 08:01 123 /bin/cat".toList]
     [synthM1] [] (by decide) (by decide) synthM1 (by decide)⟩
